import Mathlib

/-!
Verification of the acquisition-scheduler core of NeuronDownloader.

Each Python component is shallowly embedded as executable Lean definitions:

* `ActiveDownloads` embeds the resource mutex registry of `app/utils.py`
  (class `ActiveDownloads`).  The Python dict `self._active` is modelled by
  its observable view `String → Nat` (`dict.get(url, 0)`); `pop` becomes
  setting the count to 0, which is indistinguishable through the class API.
* `SendWithRetry` embeds `send_with_retry` of `app/utils.py`, with the sink
  call modelled as an oracle from attempt index to outcome.
* `DownloadManager` embeds `app/download_queue.py`: the bounded queue
  (`queue.Queue` with `put_nowait`) and the per-user admission gate of
  `_worker` as a small-step transition system over worker phases.
* `DownloadJob` embeds the `_job` closure of
  `app/handlers/download.py::queue_download`, with all external collaborators
  (storage, Telegram, yt-dlp) as oracles and the observable behaviour
  recorded as an event trace.
* `VideoDownloader.split_video` and `SplitJob` embed
  `app/downloader.py::split_video` and the `_split_job` closure of
  `app/handlers/download.py::handle_split_yes`.
* `Storage` embeds the `file_cache` table operations of `app/storage.py`.
-/

namespace ActiveDownloads

/-- Observable view of the `self._active` dict: every URL maps to its
current holder count, absent keys read as 0 (`dict.get(url, 0)`). -/
abbrev ActiveMap := String → Nat

/-- The freshly constructed registry: `self._active = {}` reads 0 everywhere. -/
def emptyMap : ActiveMap := fun _ => 0

/-- Embeds `ActiveDownloads.try_acquire` (app/utils.py lines 233-239):
if the count for `url` is positive, return `False` and leave the dict
unchanged; otherwise increment the count and return `True`.  The pair is
(returned boolean, dict after the call). -/
def try_acquire (m : ActiveMap) (url : String) : Bool × ActiveMap :=
  if 0 < m url then
    (false, m)
  else
    (true, fun u => if u = url then m url + 1 else m u)

/-- Embeds `ActiveDownloads.release` (app/utils.py lines 241-248): a count
of at most 1 pops the key (reads as 0 afterwards), otherwise the count is
decremented. -/
def release (m : ActiveMap) (url : String) : ActiveMap :=
  if m url ≤ 1 then
    (fun u => if u = url then 0 else m u)
  else
    (fun u => if u = url then m url - 1 else m u)

/-- Embeds `ActiveDownloads.is_active` (app/utils.py lines 250-253). -/
def is_active (m : ActiveMap) (url : String) : Bool := 0 < m url

/-- One call against the registry: either a `try_acquire` or a `release`.
Because every method body runs under `self._lock`, an execution of the
system is a sequence of such atomic calls. -/
inductive MutexOp where
  | tryAcq (url : String)
  | rel (url : String)
deriving DecidableEq

/-- Effect of one atomic registry call on the dict. -/
def applyOp (m : ActiveMap) : MutexOp → ActiveMap
  | MutexOp.tryAcq url => (try_acquire m url).2
  | MutexOp.rel url => release m url

/-- Runs a sequence of atomic registry calls. -/
def runOps (m : ActiveMap) : List MutexOp → ActiveMap
  | [] => m
  | op :: rest => runOps (applyOp m op) rest

end ActiveDownloads

namespace SendWithRetry

/-- Constant `UPLOAD_MAX_RETRIES` from app/constants.py line 11. -/
def UPLOAD_MAX_RETRIES : Nat := 3

/-- Constant `UPLOAD_RETRY_DELAYS` from app/constants.py line 12 (seconds). -/
def UPLOAD_RETRY_DELAYS : List Nat := [2, 5, 10]

/-- Substring test: Python's `token in error_text` on the character lists. -/
def containsToken (pat : List Char) : List Char → Bool
  | [] => pat.isPrefixOf []
  | c :: rest => if pat.isPrefixOf (c :: rest) then true else containsToken pat rest

/-- Python's `str.lower()`, character by character. -/
def strLower (s : String) : String := String.mk (s.data.map Char.toLower)

/-- The transient-error markers of `send_with_retry` (app/utils.py line 147). -/
def transientTokens : List String :=
  ["timeout", "connection", "network", "429", "502", "503"]

/-- Embeds the `is_transient` classification inside `send_with_retry`
(app/utils.py lines 144-148): the lowered exception text contains one of
the transient markers. -/
def is_transient (errorText : String) : Bool :=
  transientTokens.any (fun token => containsToken token.data errorText.data)

/-- Delay chosen before a retry:
`UPLOAD_RETRY_DELAYS[min(attempt, len(UPLOAD_RETRY_DELAYS) - 1)]`
(app/utils.py line 152). -/
def retryDelay (attempt : Nat) : Nat :=
  UPLOAD_RETRY_DELAYS.getD (min attempt (UPLOAD_RETRY_DELAYS.length - 1)) 0

/-- Observable outcome of one `send_with_retry` call: the returned value or
raised exception, how many times `send_func` was invoked, and the sequence
of `time.sleep` delays taken between attempts. -/
structure RetryRun (α : Type) where
  result : Except String α
  attempts : Nat
  delays : List Nat

/-- Embeds the `for attempt in range(UPLOAD_MAX_RETRIES)` loop of
`send_with_retry` (app/utils.py lines 136-161).  `send` is the oracle for
`send_func`: outcome of each attempt by index.  `fuel` is the number of
loop iterations left; `attempt` the current index.  A non-transient
exception propagates at once; a transient one is retried after the
scheduled delay while iterations remain, and is re-raised as `last_exc`
when the loop ends. -/
def sendWithRetryAux {α : Type} (send : Nat → Except String α) (attempt : Nat) :
    Nat → RetryRun α
  | 0 => ⟨Except.error "", 0, []⟩
  | fuel + 1 =>
    match send attempt with
    | Except.ok value => ⟨Except.ok value, 1, []⟩
    | Except.error exc =>
      if is_transient (strLower exc) then
        match fuel with
        | 0 => ⟨Except.error exc, 1, []⟩
        | _ + 1 =>
          let rest := sendWithRetryAux send (attempt + 1) fuel
          ⟨rest.result, rest.attempts + 1, retryDelay attempt :: rest.delays⟩
      else ⟨Except.error exc, 1, []⟩

/-- Embeds `send_with_retry` (app/utils.py lines 136-161). -/
def send_with_retry {α : Type} (send : Nat → Except String α) : RetryRun α :=
  sendWithRetryAux send 0 UPLOAD_MAX_RETRIES

/-- All attempts before index `k` raise a transient exception. -/
def prefixTransient {α : Type} (send : Nat → Except String α) (k : Nat) : Prop :=
  ∀ i, i < k → ∃ e, send i = Except.error e ∧ is_transient (strLower e) = true

end SendWithRetry

namespace DownloadManager

/-- Bounded FIFO queue: the observable state of `queue.Queue(maxsize)`.
`maxsize` keeps Python's convention that a non-positive value means an
unbounded queue. -/
structure PyQueue (α : Type) where
  items : List α
  maxsize : Int

/-- A freshly constructed `queue.Queue(maxsize=max_queue_size)`
(app/download_queue.py lines 19-21). -/
def emptyQueue (α : Type) (maxsize : Int) : PyQueue α := ⟨[], maxsize⟩

/-- Embeds `Queue.put_nowait`: raises `queue.Full` (the error case) exactly
when the queue is bounded and already at capacity, otherwise appends. -/
def put_nowait {α : Type} (q : PyQueue α) (x : α) : Except Unit (PyQueue α) :=
  if 0 < q.maxsize ∧ q.maxsize ≤ (q.items.length : Int) then
    Except.error ()
  else
    Except.ok { q with items := q.items ++ [x] }

/-- One queued work item `(func, args, kwargs, future, user_id)`; the
callable and future are abstracted into an opaque payload. -/
structure QueueItem (β : Type) where
  payload : β
  user_id : Option Nat

/-- Embeds `DownloadManager.submit` (app/download_queue.py lines 37-40). -/
def submit {β : Type} (q : PyQueue (QueueItem β)) (payload : β) :
    Except Unit (PyQueue (QueueItem β)) :=
  put_nowait q ⟨payload, none⟩

/-- Embeds `DownloadManager.submit_user` (app/download_queue.py lines 42-45). -/
def submit_user {β : Type} (q : PyQueue (QueueItem β)) (user_id : Nat) (payload : β) :
    Except Unit (PyQueue (QueueItem β)) :=
  put_nowait q ⟨payload, some user_id⟩

/-- Queue-facing events: submissions (with or without a user id) and a
worker taking the head item (`self._queue.get`). -/
inductive QOp (β : Type) where
  | sub (payload : β)
  | subUser (uid : Nat) (payload : β)
  | take

/-- Effect of a queue event; a rejected submission leaves the queue
unchanged, a `get` on an empty queue blocks (no state change). -/
def applyQOp {β : Type} (q : PyQueue (QueueItem β)) : QOp β → PyQueue (QueueItem β)
  | QOp.sub p =>
    match submit q p with
    | Except.ok q' => q'
    | Except.error _ => q
  | QOp.subUser uid p =>
    match submit_user q uid p with
    | Except.ok q' => q'
    | Except.error _ => q
  | QOp.take => { q with items := q.items.tail }

/-- Runs a sequence of queue events. -/
def runQOps {β : Type} (q : PyQueue (QueueItem β)) : List (QOp β) → PyQueue (QueueItem β)
  | [] => q
  | op :: rest => runQOps (applyQOp q op) rest

/-- Normalisation in `DownloadManager.__init__` (app/download_queue.py
lines 28-30): `max_active_per_user if max_active_per_user and
max_active_per_user > 0 else None` — a zero-or-unset ceiling becomes
`None`, disabling the gate. -/
def normalizeMaxActive (m : Option Nat) : Option Nat :=
  match m with
  | some c => if 0 < c then some c else none
  | none => none

/-- Phase of one worker with respect to its current job, following
`DownloadManager._worker` (app/download_queue.py lines 57-86):
`dequeued u` — item just taken from the queue with user id `u`;
`waiting uid` — gated and blocked in the admission wait loop;
`running u` — admitted (counter already incremented when gated);
`done` — finished (counter already decremented when gated). -/
inductive WPhase where
  | dequeued (u : Option Nat)
  | waiting (uid : Nat)
  | running (u : Option Nat)
  | done
deriving DecidableEq

/-- Shared gate state: the `self._active_counts` dict (absent keys read 0),
the `self._stop_event` flag and the worker phases. -/
structure GateState where
  counts : Nat → Nat
  stop : Bool
  workers : List WPhase

/-- Increment of `self._active_counts[user_id]` under the condition lock. -/
def bump (c : Nat → Nat) (uid : Nat) : Nat → Nat :=
  fun v => if v = uid then c uid + 1 else c v

/-- Decrement `max(0, count - 1)` under the condition lock
(app/download_queue.py lines 81-84); Nat subtraction models the clamp. -/
def drop1 (c : Nat → Nat) (uid : Nat) : Nat → Nat :=
  fun v => if v = uid then c uid - 1 else c v

/-- Atomic interleaving events of `_worker` and `shutdown`.
`check i`: worker `i` evaluates the admission guard for the first time
while holding the condition lock (lines 66-72) — if under the ceiling it
increments and runs, otherwise it enters the wait loop.
`notify i`: a waiting worker wakes, re-checks the guard and admits itself
if under the ceiling.
`stopBreak i`: a waiting worker wakes, observes `self._stop_event` set and
leaves the wait loop via `break`, then increments and runs (lines 69-72).
`finish i`: a running worker completes its job and decrements (lines 80-85).
`setStop`: `shutdown` sets the stop event (line 89). -/
inductive GEv where
  | check (i : Nat)
  | notify (i : Nat)
  | stopBreak (i : Nat)
  | finish (i : Nat)
  | setStop
deriving DecidableEq

/-- One atomic step of the gate; an event whose precondition does not hold
leaves the state unchanged. -/
def gateStep (maxA : Option Nat) (st : GateState) : GEv → GateState
  | GEv.setStop => { st with stop := true }
  | GEv.check i =>
    match st.workers.get? i with
    | some (WPhase.dequeued u) =>
      match u, maxA with
      | some uid, some limit =>
        if st.counts uid < limit then
          { st with workers := st.workers.set i (WPhase.running (some uid)),
                    counts := bump st.counts uid }
        else
          { st with workers := st.workers.set i (WPhase.waiting uid) }
      | _, _ => { st with workers := st.workers.set i (WPhase.running u) }
    | _ => st
  | GEv.notify i =>
    match st.workers.get? i, maxA with
    | some (WPhase.waiting uid), some limit =>
      if st.counts uid < limit then
        { st with workers := st.workers.set i (WPhase.running (some uid)),
                  counts := bump st.counts uid }
      else st
    | _, _ => st
  | GEv.stopBreak i =>
    match st.workers.get? i with
    | some (WPhase.waiting uid) =>
      if st.stop then
        { st with workers := st.workers.set i (WPhase.running (some uid)),
                  counts := bump st.counts uid }
      else st
    | _ => st
  | GEv.finish i =>
    match st.workers.get? i with
    | some (WPhase.running u) =>
      match u, maxA with
      | some uid, some _ =>
        { st with workers := st.workers.set i WPhase.done,
                  counts := drop1 st.counts uid }
      | _, _ => { st with workers := st.workers.set i WPhase.done }
    | _ => st

/-- Runs a sequence of gate events. -/
def gateRun (maxA : Option Nat) (st : GateState) : List GEv → GateState
  | [] => st
  | e :: rest => gateRun maxA (gateStep maxA st e) rest

/-- Initial state: fresh counts and stop flag, one dequeued job per worker. -/
def gateInit (jobs : List (Option Nat)) : GateState :=
  ⟨fun _ => 0, false, jobs.map WPhase.dequeued⟩

/-- Number of jobs of submitter `uid` currently in the running state. -/
def runningCount (uid : Nat) (st : GateState) : Nat :=
  st.workers.countP (fun w => decide (w = WPhase.running (some uid)))

/-- C2 as claimed: with a configured ceiling `limit > 0`, no interleaving
of worker and shutdown events lets a submitter exceed `limit` concurrently
running jobs. -/
def ceilingClaim : Prop :=
  ∀ (limit : Nat), 0 < limit → ∀ (jobs : List (Option Nat)) (evs : List GEv) (uid : Nat),
    runningCount uid (gateRun (some limit) (gateInit jobs) evs) ≤ limit

/-- The key inductive invariant (for an enabled gate `some limit`): the
`_active_counts` entry of every user equals the number of that user's
jobs currently running. -/
def GateInv (st : GateState) : Prop :=
  ∀ uid, st.counts uid = runningCount uid st

end DownloadManager

namespace VideoDownloader

/-- Abstract file paths produced by `split_video`: the original input file
or the ffmpeg output `base_partN.ext` for 1-based part number `N`. -/
inductive SplitPath where
  | original
  | part (n : Nat)
deriving DecidableEq

/-- Embeds the per-part ffmpeg loop of `split_video` (app/downloader.py
lines 670-689).  The oracle `partOut i` reports, for 0-based segment `i`,
the size of the file ffmpeg left behind, or `none` when the invocation
raised or produced no file; a part is appended exactly when the file
exists with positive size. -/
def collectParts (partOut : Nat → Option Nat) (numParts : Nat) : List SplitPath :=
  (List.range numParts).filterMap (fun i =>
    match partOut i with
    | some size => if 0 < size then some (SplitPath.part (i + 1)) else none
    | none => none)

/-- Embeds `VideoDownloader.split_video` (app/downloader.py lines
638-690).  `fileSize` is `os.path.getsize(file_path)`; `duration` the
ffprobe result (`none` when ffprobe fails or its output does not parse);
`partOut` the ffmpeg oracle.  `math.ceil(file_size / max_size)` is the
ceiling division `(fileSize + maxSize - 1) / maxSize`.  Returns the part
paths, or the single original path when the file already fits, the
duration is unknown or non-positive, or no part was produced. -/
def split_video (fileSize maxSize : Nat) (duration : Option ℚ)
    (partOut : Nat → Option Nat) : List SplitPath :=
  if fileSize ≤ maxSize then [SplitPath.original]
  else
    match duration with
    | none => [SplitPath.original]
    | some d =>
      if d ≤ 0 then [SplitPath.original]
      else
        let numParts := (fileSize + maxSize - 1) / maxSize
        let parts := collectParts partOut numParts
        if parts = [] then [SplitPath.original] else parts

end VideoDownloader

namespace SplitJob

/-- Embeds the delivery loop of the `_split_job` closure
(app/handlers/download.py lines 1143-1168):
`for i, part_path in enumerate(parts, 1)` attempts to send each part in
order; a failed send is caught (`logging.exception`) and the loop
continues with the next part.  `sendOk i` is the sink oracle for the
1-based part position `i`; the result lists the positions delivered
successfully, in delivery order. -/
def deliverLoop (sendOk : Nat → Bool) : List Nat → List Nat
  | [] => []
  | i :: rest =>
    if sendOk i then i :: deliverLoop sendOk rest else deliverLoop sendOk rest

/-- Observable outcome of one `_split_job` run: the attempted part
positions in order, the successfully delivered positions in order, and
whether any `storage.cache_file` call was made (the closure contains
none). -/
structure SplitRun where
  attempted : List Nat
  delivered : List Nat
  cacheWritten : Bool

/-- Embeds `_split_job` (app/handlers/download.py lines 1124-1198) applied
to the parts returned by `split_video`: every part position 1..N is
attempted in order, deliveries follow the sink oracle, and no cache entry
is ever written on this path. -/
def split_job (parts : List VideoDownloader.SplitPath) (sendOk : Nat → Bool) :
    SplitRun :=
  { attempted := (List.range parts.length).map (· + 1)
    delivered := deliverLoop sendOk ((List.range parts.length).map (· + 1))
    cacheWritten := false }

/-- Every delivered position is preceded by the delivery of all smaller
positions — the "no part delivered before all prior parts" reading of the
oversize-split claim. -/
def prefixDelivered (delivered : List Nat) : Prop :=
  ∀ j ∈ delivered, ∀ k, 1 ≤ k → k < j → k ∈ delivered

/-- C6 as claimed, ordering conjunct: for every oversized artifact and
every delivery outcome, no part is delivered before all prior parts of
the same artifact. -/
def splitOrderClaim : Prop :=
  ∀ (fileSize maxSize : Nat) (duration : ℚ) (partOut : Nat → Option Nat)
    (sendOk : Nat → Bool),
    prefixDelivered
      (split_job (VideoDownloader.split_video fileSize maxSize (some duration) partOut)
        sendOk).delivered

end SplitJob

namespace Storage

/-- Key of the `file_cache` table: the columns of its UNIQUE constraint
`UNIQUE(url, format_id, reencoded, audio_only)` (app/storage.py line 205),
with `format_id` already normalised. -/
structure CacheKey where
  url : String
  format_id : String
  reencoded : Bool
  audio_only : Bool
deriving DecidableEq

/-- One `file_cache` row (the columns the cache API reads and writes). -/
structure CacheRow where
  key : CacheKey
  telegram_file_id : String
  file_size : Option Nat
deriving DecidableEq

/-- Normalisation `fmt = format_id or "best"` (app/storage.py lines 785
and 809): `None` and the falsy empty string both become "best". -/
def normFmt (format_id : Option String) : String :=
  match format_id with
  | some s => if s = "" then "best" else s
  | none => "best"

/-- Embeds the effect of the `INSERT ... ON CONFLICT(url, format_id,
reencoded, audio_only) DO UPDATE` statement of `Storage.cache_file`
(app/storage.py lines 786-799) on the table rows: under the UNIQUE
constraint at most one row conflicts, and that row gets the new
`telegram_file_id` and `file_size`; otherwise the row is inserted. -/
def upsertRows (k : CacheKey) (fid : String) (size : Option Nat) :
    List CacheRow → List CacheRow
  | [] => [⟨k, fid, size⟩]
  | r :: rest =>
    if r.key = k then
      ⟨k, fid, size⟩ :: rest
    else
      r :: upsertRows k fid size rest

/-- Embeds `Storage.cache_file` (app/storage.py lines 772-799). -/
def cache_file (table : List CacheRow) (url : String) (format_id : Option String)
    (reencoded audio_only : Bool) (telegram_file_id : String)
    (file_size : Option Nat) : List CacheRow :=
  upsertRows ⟨url, normFmt format_id, reencoded, audio_only⟩
    telegram_file_id file_size table

/-- Embeds `Storage.get_cached_file` (app/storage.py lines 801-817): the
`telegram_file_id` of the row matching the key, or `None`. -/
def get_cached_file (table : List CacheRow) (url : String)
    (format_id : Option String) (reencoded audio_only : Bool) : Option String :=
  (table.find? (fun r =>
    r.key = ⟨url, normFmt format_id, reencoded, audio_only⟩)).map
    (fun r => r.telegram_file_id)

/-- Number of rows holding a given key. -/
def keyCount (table : List CacheRow) (k : CacheKey) : Nat :=
  table.countP (fun r => decide (r.key = k))

end Storage

namespace DownloadJob

/-- Observable actions of one `_job` run (app/handlers/download.py lines
186-633), in program order:
`tryAcquireEv ok` — the `active_downloads.try_acquire(url)` call and its
result (line 197); `busyMessage` — the "already downloading" reply;
`cacheGet re ao hit` — one `storage.get_cached_file` probe (lines
281-293); `sendCached` — the `_send_media(cached_file_id, ...)` attempt;
`getInfoCall` — the `downloader.get_info` / `get_direct_url` block (lines
353-358); `directSendAttempt` — the `_send_media(direct_url, ...)`
attempt (line 392); `downloadCall` — the fallback `downloader.download`
(line 426); `splitPrompt` — the split-confirmation handoff for an
oversized file (lines 460-497); `sendFileAttempt` — the
`_send_media(handle, ...)` of the downloaded file (line 545);
`cacheWrite` — the `storage.cache_file` call (line 564);
`logDownloadEv success` — a `storage.log_download` record;
`releaseEv` — the `active_downloads.release(url)` in `finally`
(line 633). -/
inductive JEv where
  | tryAcquireEv (ok : Bool)
  | busyMessage
  | cacheGet (reencoded audioOnly hit : Bool)
  | sendCached
  | getInfoCall
  | directSendAttempt
  | downloadCall
  | splitPrompt
  | sendFileAttempt
  | cacheWrite
  | logDownloadEv (success : Bool)
  | releaseEv
deriving DecidableEq

/-- How the `_job` run ended. -/
inductive JOutcome where
  | skippedBlocked
  | skippedShutdown
  | busy
  | cacheReplay
  | directDelivered
  | splitPending
  | delivered
  | failedTimeout
  | failedError
deriving DecidableEq

/-- Result of the `get_info`/`get_direct_url` block: the direct URL and
the declared size, when the resolver supplied them. -/
structure InfoResult where
  directUrl : Option String
  directSize : Option Nat

/-- Failure modes of the fallback fetch: the `TimeoutError` raised by the
progress hook, or any other exception. -/
inductive FetchErr where
  | timeout
  | error
deriving DecidableEq

/-- A fetched local file; `totalBytes` is `get_file_size(file_path)`,
which may be `None`. -/
structure FetchedFile where
  totalBytes : Option Nat

/-- Oracles for the collaborators `_job` calls: `blocked` is
`storage.is_blocked`; `shutdownRequested` is `ctx.shutdown_requested`;
`deviceAndroid` whether the stored device type equals `DEVICE_ANDROID`;
`cached re ao` the `storage.get_cached_file(url, fmt, re, ao)` result;
`cachedSendOk` whether the cached-id `_send_media` succeeds; `info` the
`get_info`/`get_direct_url` result (`none` when the block raised);
`skipExtractor` whether `extractor_key` is in
`DIRECT_URL_SKIP_EXTRACTORS`; `directSendOk` whether the direct-URL
`_send_media` succeeds; `fetch` the `downloader.download` result;
`fileSend` the file `_send_media` result (`ok fid?` returns the optional
Telegram file id, `error` raises). -/
structure JobEnv where
  blocked : Bool
  shutdownRequested : Bool
  deviceAndroid : Bool
  cached : Bool → Bool → Option String
  cachedSendOk : Bool
  info : Option InfoResult
  skipExtractor : Bool
  directSendOk : Bool
  fetch : Except FetchErr FetchedFile
  fileSend : Except Unit (Option String)

/-- Embeds the cache-probe sequence of `_job` (app/handlers/download.py
lines 279-293): first `(need_reencoded, audio_only)` with
`need_reencoded = not audio_only and user_device != DEVICE_ANDROID`;
then, on a miss, the reencoded-original fallback for non-Android devices,
or the reencoded variant for Android video requests. -/
def cacheProbe (env : JobEnv) (audioOnly : Bool) : List JEv × Option String :=
  match env.cached (!audioOnly && !env.deviceAndroid) audioOnly with
  | some fid =>
    ([JEv.cacheGet (!audioOnly && !env.deviceAndroid) audioOnly true], some fid)
  | none =>
    if (!audioOnly && !env.deviceAndroid) then
      match env.cached false audioOnly with
      | some fid =>
        ([JEv.cacheGet (!audioOnly && !env.deviceAndroid) audioOnly false,
          JEv.cacheGet false audioOnly true], some fid)
      | none =>
        ([JEv.cacheGet (!audioOnly && !env.deviceAndroid) audioOnly false,
          JEv.cacheGet false audioOnly false], none)
    else if (!audioOnly) then
      match env.cached true audioOnly with
      | some fid =>
        ([JEv.cacheGet (!audioOnly && !env.deviceAndroid) audioOnly false,
          JEv.cacheGet true audioOnly true], some fid)
      | none =>
        ([JEv.cacheGet (!audioOnly && !env.deviceAndroid) audioOnly false,
          JEv.cacheGet true audioOnly false], none)
    else ([JEv.cacheGet (!audioOnly && !env.deviceAndroid) audioOnly false], none)

/-- Events of the fallback fetch and everything after it
(app/handlers/download.py lines 417-598 plus the `except` handlers at
600-631): the download call (timeout and generic failures are caught by
the handlers and logged as failed), the oversize split handoff (no send,
no cache write on that path), or the send of the file followed by a cache
write when a Telegram file id came back. -/
def fetchTrace (env : JobEnv) (maxFileSize : Nat) : List JEv :=
  match env.fetch with
  | Except.error FetchErr.timeout => [JEv.downloadCall, JEv.logDownloadEv false]
  | Except.error FetchErr.error => [JEv.downloadCall, JEv.logDownloadEv false]
  | Except.ok file =>
    if maxFileSize < file.totalBytes.getD 0 then
      [JEv.downloadCall, JEv.splitPrompt, JEv.logDownloadEv true]
    else
      match env.fileSend with
      | Except.error _ =>
        [JEv.downloadCall, JEv.sendFileAttempt, JEv.logDownloadEv false]
      | Except.ok (some _) =>
        [JEv.downloadCall, JEv.sendFileAttempt, JEv.cacheWrite,
          JEv.logDownloadEv true]
      | Except.ok none =>
        [JEv.downloadCall, JEv.sendFileAttempt, JEv.logDownloadEv true]

/-- Outcome of the fallback fetch, per the same branches as `fetchTrace`. -/
def fetchOutcome (env : JobEnv) (maxFileSize : Nat) : JOutcome :=
  match env.fetch with
  | Except.error FetchErr.timeout => JOutcome.failedTimeout
  | Except.error FetchErr.error => JOutcome.failedError
  | Except.ok file =>
    if maxFileSize < file.totalBytes.getD 0 then JOutcome.splitPending
    else
      match env.fileSend with
      | Except.error _ => JOutcome.failedError
      | Except.ok _ => JOutcome.delivered

/-- The fallback-fetch stage: its events appended to the events so far,
and its outcome. -/
def fallbackFetch (env : JobEnv) (maxFileSize : Nat) (pre : List JEv) :
    List JEv × JOutcome :=
  (pre ++ fetchTrace env maxFileSize, fetchOutcome env maxFileSize)

/-- The direct URL, after the `try`/`except` around `get_info` and
`get_direct_url` (app/handlers/download.py lines 350-359) and the
protected-CDN extractor skip (lines 368-374). -/
def directUrlOf (env : JobEnv) : Option String :=
  match env.info with
  | none => none
  | some r => if r.directUrl.isSome && env.skipExtractor then none else r.directUrl

/-- The declared size of the direct candidate. -/
def directSizeOf (env : JobEnv) : Option Nat :=
  match env.info with
  | none => none
  | some r => r.directSize

/-- Embeds the direct-delivery stage (app/handlers/download.py lines
349-415): with a usable direct URL, skip the attempt when the declared
size exceeds the sink maximum (`direct_size and direct_size >
max_file_size` — a missing or zero size does not skip, modelled by
`getD 0`), otherwise attempt the direct send; on a send failure fall
through to the fallback fetch. -/
def afterCacheMiss (env : JobEnv) (maxFileSize : Nat) (pre : List JEv) :
    List JEv × JOutcome :=
  match directUrlOf env with
  | some _ =>
    if maxFileSize < (directSizeOf env).getD 0 then
      fallbackFetch env maxFileSize (pre ++ [JEv.getInfoCall])
    else if env.directSendOk then
      (pre ++ [JEv.getInfoCall, JEv.directSendAttempt, JEv.logDownloadEv true],
       JOutcome.directDelivered)
    else
      fallbackFetch env maxFileSize
        (pre ++ [JEv.getInfoCall, JEv.directSendAttempt])
  | none => fallbackFetch env maxFileSize (pre ++ [JEv.getInfoCall])

/-- Embeds the body of the big `try` block of `_job` (app/handlers/
download.py lines 267-631): cache probe; on a hit, replay from cache
(`return` on success; on a send failure fall through to the normal
path); on a miss, the direct-delivery stage and fallback fetch. -/
def jobBody (env : JobEnv) (audioOnly : Bool) (maxFileSize : Nat) :
    List JEv × JOutcome :=
  match cacheProbe env audioOnly with
  | (cacheTr, some _) =>
    if env.cachedSendOk then
      (cacheTr ++ [JEv.sendCached, JEv.logDownloadEv true], JOutcome.cacheReplay)
    else
      afterCacheMiss env maxFileSize (cacheTr ++ [JEv.sendCached])
  | (cacheTr, none) => afterCacheMiss env maxFileSize cacheTr

/-- Embeds `_job` (app/handlers/download.py lines 186-633): the blocked
and shutdown early returns, the `try_acquire` dedup gate with its busy
reply, then the `try`-body with the unconditional
`finally: active_downloads.release(url)`.  Returns the event trace, the
outcome and the mutex registry after the run. -/
def job (env : JobEnv) (audioOnly : Bool) (maxFileSize : Nat)
    (m : ActiveDownloads.ActiveMap) (url : String) :
    List JEv × JOutcome × ActiveDownloads.ActiveMap :=
  if env.blocked then ([], JOutcome.skippedBlocked, m)
  else if env.shutdownRequested then ([], JOutcome.skippedShutdown, m)
  else
    let acq := ActiveDownloads.try_acquire m url
    if acq.1 then
      let body := jobBody env audioOnly maxFileSize
      (JEv.tryAcquireEv true :: body.1 ++ [JEv.releaseEv], body.2,
        ActiveDownloads.release acq.2 url)
    else
      ([JEv.tryAcquireEv false, JEv.busyMessage], JOutcome.busy, acq.2)

/-- Recognises cache-probe events. -/
def isCacheGet : JEv → Bool
  | JEv.cacheGet _ _ _ => true
  | _ => false

/-- C3 as claimed: every successful `try_acquire` in a job trace happens
only after some cache probe has returned a miss. -/
def acquireOnlyAfterMiss (tr : List JEv) : Prop :=
  ∀ i, tr.get? i = some (JEv.tryAcquireEv true) →
    ∃ j, j < i ∧ ∃ re ao, tr.get? j = some (JEv.cacheGet re ao false)

/-- A concrete environment: user not blocked, no shutdown, Android
device, every cache probe hits, cached send succeeds. -/
def envHit : JobEnv :=
  { blocked := false
    shutdownRequested := false
    deviceAndroid := true
    cached := fun _ _ => some "fid"
    cachedSendOk := true
    info := none
    skipExtractor := false
    directSendOk := false
    fetch := Except.error FetchErr.error
    fileSend := Except.error () }

/-- A concrete cold-cache environment for C8: direct candidate of
declared size 100, sink maximum 50, so the direct send must be skipped
and the fetch performed. -/
def envOversizeDirect : JobEnv :=
  { blocked := false
    shutdownRequested := false
    deviceAndroid := true
    cached := fun _ _ => none
    cachedSendOk := true
    info := some ⟨some "du", some 100⟩
    skipExtractor := false
    directSendOk := true
    fetch := Except.ok ⟨some 10⟩
    fileSend := Except.ok (some "fid") }

end DownloadJob

namespace ActiveDownloads

theorem runOps_cons (m : ActiveMap) (op : MutexOp) (rest : List MutexOp) :
    runOps m (op :: rest) = runOps (applyOp m op) rest := rfl

/-- Counts stay at most 1: `try_acquire` only increments a zero count. -/
theorem applyOp_le_one (m : ActiveMap) (op : MutexOp) (u : String)
    (h : ∀ v, m v ≤ 1) : applyOp m op u ≤ 1 := by
  cases op with
  | tryAcq url =>
    simp only [applyOp, try_acquire]
    by_cases h0 : 0 < m url
    · simpa [h0] using h u
    · simp only [h0, if_false]
      by_cases hu : u = url
      · simp [hu]; omega
      · simpa [hu] using h u
  | rel url =>
    have h1 : m url ≤ 1 := h url
    simp only [applyOp, release, if_pos h1]
    by_cases hu : u = url
    · simp [hu]
    · simpa [hu] using h u

theorem runOps_le_one (ops : List MutexOp) (m : ActiveMap)
    (h : ∀ v, m v ≤ 1) : ∀ u, runOps m ops u ≤ 1 := by
  induction ops generalizing m with
  | nil => exact h
  | cons op rest ih =>
    intro u
    exact ih (applyOp m op) (fun v => applyOp_le_one m op v h) u

/-- A held key stays held across any call sequence that never releases it. -/
theorem runOps_held (ops : List MutexOp) (m : ActiveMap) (url : String)
    (hheld : 0 < m url) (hnorel : MutexOp.rel url ∉ ops) :
    0 < runOps m ops url := by
  induction ops generalizing m with
  | nil => exact hheld
  | cons op rest ih =>
    rw [runOps_cons]
    have hop : op ≠ MutexOp.rel url := by
      intro h; exact hnorel (by simp [h])
    have hrest : MutexOp.rel url ∉ rest := by
      intro h; exact hnorel (by simp [h])
    apply ih _ _ hrest
    cases op with
    | tryAcq u' =>
      simp only [applyOp, try_acquire]
      by_cases h0 : 0 < m u'
      · simpa [h0] using hheld
      · simp only [h0, if_false]
        by_cases hu : url = u'
        · subst hu; omega
        · simpa [hu] using hheld
    | rel u' =>
      have hne : url ≠ u' := by
        intro h; exact hop (by rw [h])
      simp only [applyOp, release]
      by_cases h1 : m u' ≤ 1
      · rw [if_pos h1, if_neg hne]; exact hheld
      · rw [if_neg h1, if_neg hne]; exact hheld

/-- C1.  Resource mutex exclusivity.  First conjunct: starting from the
fresh registry, after any sequence of atomic calls every key has at most
one holder.  Second conjunct: once `try_acquire url` has succeeded, every
later `try_acquire url` returns `False` as long as no `release url`
happened in between. -/
theorem mutex_exclusive (ops : List MutexOp) (url : String) :
    runOps emptyMap ops url ≤ 1 ∧
    ∀ (m : ActiveMap) (between : List MutexOp),
      (try_acquire m url).1 = true →
      MutexOp.rel url ∉ between →
      (try_acquire (runOps (try_acquire m url).2 between) url).1 = false := by
  constructor
  · exact runOps_le_one ops emptyMap (fun _ => Nat.zero_le 1) url
  · intro m between hacq hnorel
    have hfree : ¬ 0 < m url := by
      by_contra hpos
      simp [try_acquire, hpos] at hacq
    have hheld : 0 < (try_acquire m url).2 url := by
      simp [try_acquire, hfree]
    have hpos := runOps_held between _ url hheld hnorel
    simp only [try_acquire] at hpos ⊢
    rw [if_pos hpos]

/-- Witness for C1 on a concrete trace: acquire a key, run an unrelated
release, and the second acquire of the same key is refused. -/
theorem mutex_exclusive_witness :
    runOps emptyMap [MutexOp.tryAcq "a", MutexOp.tryAcq "a"] "a" ≤ 1 ∧
    (try_acquire (runOps (try_acquire emptyMap "a").2 [MutexOp.rel "b"]) "a").1 = false := by
  constructor
  · exact (mutex_exclusive [MutexOp.tryAcq "a", MutexOp.tryAcq "a"] "a").1
  · exact (mutex_exclusive [] "a").2 emptyMap [MutexOp.rel "b"] (by decide)
      (by simp)

end ActiveDownloads

namespace SendWithRetry

/-- C7.  Delivery retry semantics.  First conjunct: after any run of
transient failures, a non-transient (permanent) failure at attempt `k`
propagates immediately: exactly `k + 1` calls were made and only the
delays before attempt `k` were slept.  Second conjunct: when all
`UPLOAD_MAX_RETRIES` attempts fail transiently, the last transient
exception is raised and exactly `UPLOAD_MAX_RETRIES` calls were made with
the configured backoff delays between them.  Third conjunct: a success at
attempt `k` after transient failures returns that value. -/
theorem retry_semantics {α : Type} (send : Nat → Except String α) :
    (∀ k e, k < UPLOAD_MAX_RETRIES → prefixTransient send k →
       send k = Except.error e → is_transient (strLower e) = false →
       send_with_retry send =
         ⟨Except.error e, k + 1, (List.range k).map retryDelay⟩) ∧
    (∀ e, prefixTransient send (UPLOAD_MAX_RETRIES - 1) →
       send (UPLOAD_MAX_RETRIES - 1) = Except.error e →
       is_transient (strLower e) = true →
       send_with_retry send =
         ⟨Except.error e, UPLOAD_MAX_RETRIES,
          (List.range (UPLOAD_MAX_RETRIES - 1)).map retryDelay⟩) ∧
    (∀ k a, k < UPLOAD_MAX_RETRIES → prefixTransient send k →
       send k = Except.ok a →
       send_with_retry send =
         ⟨Except.ok a, k + 1, (List.range k).map retryDelay⟩) := by
  refine ⟨?_, ?_, ?_⟩
  · intro k e hk hpre hsend htrans
    simp only [UPLOAD_MAX_RETRIES] at hk
    interval_cases k
    · simp [send_with_retry, UPLOAD_MAX_RETRIES, sendWithRetryAux, hsend, htrans]
    · obtain ⟨e0, h0, t0⟩ := hpre 0 (by omega)
      simp [send_with_retry, UPLOAD_MAX_RETRIES, sendWithRetryAux, h0, t0,
        hsend, htrans, List.range_succ]
    · obtain ⟨e0, h0, t0⟩ := hpre 0 (by omega)
      obtain ⟨e1, h1, t1⟩ := hpre 1 (by omega)
      simp [send_with_retry, UPLOAD_MAX_RETRIES, sendWithRetryAux, h0, t0,
        h1, t1, hsend, htrans, List.range_succ]
  · intro e hpre hsend htrans
    obtain ⟨e0, h0, t0⟩ := hpre 0 (by simp [UPLOAD_MAX_RETRIES])
    obtain ⟨e1, h1, t1⟩ := hpre 1 (by simp [UPLOAD_MAX_RETRIES])
    simp only [UPLOAD_MAX_RETRIES] at hsend ⊢
    simp [send_with_retry, UPLOAD_MAX_RETRIES, sendWithRetryAux, h0, t0,
      h1, t1, hsend, htrans, List.range_succ]
  · intro k a hk hpre hsend
    simp only [UPLOAD_MAX_RETRIES] at hk
    interval_cases k
    · simp [send_with_retry, UPLOAD_MAX_RETRIES, sendWithRetryAux, hsend]
    · obtain ⟨e0, h0, t0⟩ := hpre 0 (by omega)
      simp [send_with_retry, UPLOAD_MAX_RETRIES, sendWithRetryAux, h0, t0,
        hsend, List.range_succ]
    · obtain ⟨e0, h0, t0⟩ := hpre 0 (by omega)
      obtain ⟨e1, h1, t1⟩ := hpre 1 (by omega)
      simp [send_with_retry, UPLOAD_MAX_RETRIES, sendWithRetryAux, h0, t0,
        h1, t1, hsend, List.range_succ]

/-- Witness for C7: a permanent failure ("bad request") after one
transient failure ("timeout") stops after two calls with one 2 second
delay. -/
theorem retry_semantics_witness :
    send_with_retry (fun i =>
        if i = 0 then (Except.error "Timeout" : Except String Nat)
        else Except.error "Bad Request") =
      ⟨Except.error "Bad Request", 2, [2]⟩ := by
  have h := (retry_semantics (fun i =>
      if i = 0 then (Except.error "Timeout" : Except String Nat)
      else Except.error "Bad Request")).1 1 "Bad Request"
    (by decide)
    (by
      intro i hi
      interval_cases i
      exact ⟨"Timeout", rfl, by decide⟩)
    rfl (by decide)
  simpa using h

end SendWithRetry

namespace DownloadManager

theorem applyQOp_maxsize {β : Type} (q : PyQueue (QueueItem β)) (op : QOp β) :
    (applyQOp q op).maxsize = q.maxsize := by
  cases op with
  | take => rfl
  | sub p =>
    simp only [applyQOp, submit, put_nowait]
    by_cases hfull : 0 < q.maxsize ∧ q.maxsize ≤ (q.items.length : Int) <;> simp [hfull]
  | subUser uid p =>
    simp only [applyQOp, submit_user, put_nowait]
    by_cases hfull : 0 < q.maxsize ∧ q.maxsize ≤ (q.items.length : Int) <;> simp [hfull]

theorem applyQOp_le {β : Type} (q : PyQueue (QueueItem β)) (op : QOp β)
    (hbound : 0 < q.maxsize) (h : (q.items.length : Int) ≤ q.maxsize) :
    ((applyQOp q op).items.length : Int) ≤ (applyQOp q op).maxsize := by
  rw [applyQOp_maxsize]
  cases op with
  | take =>
    simp only [applyQOp]
    have := List.length_tail q.items
    have hle : q.items.tail.length ≤ q.items.length := by
      simp [List.length_tail]
    omega
  | sub p =>
    simp only [applyQOp, submit, put_nowait]
    by_cases hfull : 0 < q.maxsize ∧ q.maxsize ≤ (q.items.length : Int)
    · simp only [hfull, if_true]; exact h
    · simp only [hfull, if_false]
      simp only [List.length_append, List.length_cons, List.length_nil]
      push_neg at hfull
      have := hfull hbound
      push_cast
      omega
  | subUser uid p =>
    simp only [applyQOp, submit_user, put_nowait]
    by_cases hfull : 0 < q.maxsize ∧ q.maxsize ≤ (q.items.length : Int)
    · simp only [hfull, if_true]; exact h
    · simp only [hfull, if_false]
      simp only [List.length_append, List.length_cons, List.length_nil]
      push_neg at hfull
      have := hfull hbound
      push_cast
      omega

theorem runQOps_bounded {β : Type} (ops : List (QOp β)) (q : PyQueue (QueueItem β))
    (hbound : 0 < q.maxsize) (h : (q.items.length : Int) ≤ q.maxsize) :
    ((runQOps q ops).items.length : Int) ≤ q.maxsize := by
  induction ops generalizing q with
  | nil => exact h
  | cons op rest ih =>
    have hm := applyQOp_maxsize q op
    have h1 := applyQOp_le q op hbound h
    have h2 := ih (applyQOp q op) (by rw [hm]; exact hbound)
      (by rw [hm] at h1 ⊢; exact h1)
    show ((runQOps (applyQOp q op) rest).items.length : Int) ≤ q.maxsize
    rw [hm] at h2
    exact h2

/-- C4.  Queue-full backpressure.  For every event sequence on a bounded
queue (capacity `maxsize > 0`): the length never exceeds the capacity;
and a `submit_user` (or `submit`) issued while the queue holds `maxsize`
items fails immediately with the queue-full error and leaves the queue
unchanged. -/
theorem queue_backpressure {β : Type} (ops : List (QOp β)) (maxsize : Int)
    (uid : Nat) (p : β) (hbound : 0 < maxsize) :
    ((runQOps (emptyQueue (QueueItem β) maxsize) ops).items.length : Int) ≤ maxsize ∧
    ∀ (q : PyQueue (QueueItem β)),
      q.maxsize = maxsize → (q.items.length : Int) = maxsize →
      submit_user q uid p = Except.error () ∧
      submit q p = Except.error () ∧
      applyQOp q (QOp.subUser uid p) = q := by
  refine ⟨runQOps_bounded ops _ hbound (by simp [emptyQueue]; omega), ?_⟩
  intro q hq hlen
  have hfull : 0 < q.maxsize ∧ q.maxsize ≤ (q.items.length : Int) := by
    constructor
    · rw [hq]; exact hbound
    · rw [hq, hlen]
  refine ⟨?_, ?_, ?_⟩
  · simp [submit_user, put_nowait, hfull]
  · simp [submit, put_nowait, hfull]
  · simp [applyQOp, submit_user, put_nowait, hfull]

/-- Witness for C4: capacity 2, two submissions fill the queue, the third
is rejected and the queue keeps its two items. -/
theorem queue_backpressure_witness :
    (((runQOps (emptyQueue (QueueItem Unit) 2)
        [QOp.subUser 7 (), QOp.subUser 7 ()]).items.length : Int) ≤ 2) ∧
    submit_user (runQOps (emptyQueue (QueueItem Unit) 2)
        [QOp.subUser 7 (), QOp.subUser 7 ()]) 7 () = Except.error () := by
  have h := queue_backpressure (β := Unit)
    [QOp.subUser 7 (), QOp.subUser 7 ()] 2 7 () (by decide)
  refine ⟨h.1, ?_⟩
  exact (h.2 _ rfl (by rfl)).1

/-- Counterexample for C2: ceiling 1, two jobs of user 0.  Worker 0 admits
its job; worker 1 enters the wait loop; `shutdown` sets the stop event;
worker 1 wakes, breaks out of the wait loop and increments past the
ceiling: both jobs run concurrently. -/
theorem ceiling_shutdown_counterexample : ¬ ceilingClaim := by
  intro h
  have h2 := h 1 (by decide) [some 0, some 0]
    [GEv.check 0, GEv.check 1, GEv.setStop, GEv.stopBreak 1] 0
  have h3 : runningCount 0 (gateRun (some 1) (gateInit [some 0, some 0])
      [GEv.check 0, GEv.check 1, GEv.setStop, GEv.stopBreak 1]) = 2 := by decide
  omega

theorem countP_set_add {α : Type} (p : α → Bool) :
    ∀ (l : List α) (i : Nat) (b a : α), l.get? i = some b →
      (l.set i a).countP p + (if p b then 1 else 0) =
        l.countP p + (if p a then 1 else 0) := by
  intro l
  induction l with
  | nil => intro i b a h; simp at h
  | cons x xs ih =>
    intro i b a h
    cases i with
    | zero =>
      simp only [List.get?] at h
      injection h with h
      subst h
      simp only [List.set, List.countP_cons]
      omega
    | succ n =>
      simp only [List.get?] at h
      have hih := ih n b a h
      simp only [List.set, List.countP_cons]
      omega

theorem gateInv_set_run (st : GateState) (i uid0 : Nat) (b : WPhase)
    (h : GateInv st) (hw : st.workers.get? i = some b)
    (hb : ∀ uid, b ≠ WPhase.running (some uid)) :
    GateInv { st with workers := st.workers.set i (WPhase.running (some uid0)),
                      counts := bump st.counts uid0 } := by
  intro uid
  have hthis := h uid
  simp only [runningCount] at hthis ⊢
  have hc := countP_set_add (fun w => decide (w = WPhase.running (some uid)))
    st.workers i b (WPhase.running (some uid0)) hw
  have hbf : ¬ (b = WPhase.running (some uid)) := hb uid
  by_cases huid : uid = uid0
  · subst huid
    simp [bump, hbf] at hc ⊢
    omega
  · have hne : ¬ (uid0 = uid) := fun hh => huid hh.symm
    simp [bump, hbf, huid, hne] at hc ⊢
    omega

theorem gateInv_set_nonrun (st : GateState) (i : Nat) (b a : WPhase)
    (h : GateInv st) (hw : st.workers.get? i = some b)
    (hb : ∀ uid, b ≠ WPhase.running (some uid))
    (ha : ∀ uid, a ≠ WPhase.running (some uid)) :
    GateInv { st with workers := st.workers.set i a } := by
  intro uid
  have hthis := h uid
  simp only [runningCount] at hthis ⊢
  have hc := countP_set_add (fun w => decide (w = WPhase.running (some uid)))
    st.workers i b a hw
  have hbf : ¬ (b = WPhase.running (some uid)) := hb uid
  have haf : ¬ (a = WPhase.running (some uid)) := ha uid
  simp [hbf, haf] at hc ⊢
  omega

theorem gateInv_finish (st : GateState) (i uid0 : Nat)
    (h : GateInv st) (hw : st.workers.get? i = some (WPhase.running (some uid0))) :
    GateInv { st with workers := st.workers.set i WPhase.done,
                      counts := drop1 st.counts uid0 } := by
  intro uid
  have hthis := h uid
  simp only [runningCount] at hthis ⊢
  have hc := countP_set_add (fun w => decide (w = WPhase.running (some uid)))
    st.workers i (WPhase.running (some uid0)) WPhase.done hw
  by_cases huid : uid = uid0
  · subst huid
    simp [drop1] at hc ⊢
    omega
  · have hne : ¬ (uid0 = uid) := fun hh => huid hh.symm
    simp [drop1, huid, hne] at hc ⊢
    omega

theorem gateStep_inv (limit : Nat) (st : GateState) (e : GEv)
    (h : GateInv st) : GateInv (gateStep (some limit) st e) := by
  cases e with
  | setStop => exact h
  | check i =>
    simp only [gateStep]
    cases hw : st.workers.get? i with
    | none => exact h
    | some w =>
      cases w with
      | dequeued u =>
        cases u with
        | none =>
          exact gateInv_set_nonrun st i (WPhase.dequeued none) (WPhase.running none)
            h hw (by intro uid hh; cases hh) (by intro uid hh; cases hh)
        | some uid0 =>
          by_cases hlt : st.counts uid0 < limit
          · simp only [hlt, if_true]
            exact gateInv_set_run st i uid0 (WPhase.dequeued (some uid0)) h hw
              (by intro uid hh; cases hh)
          · simp only [hlt, if_false]
            exact gateInv_set_nonrun st i (WPhase.dequeued (some uid0))
              (WPhase.waiting uid0) h hw
              (by intro uid hh; cases hh) (by intro uid hh; cases hh)
      | waiting uid0 => exact h
      | running u => exact h
      | done => exact h
  | notify i =>
    simp only [gateStep]
    cases hw : st.workers.get? i with
    | none => exact h
    | some w =>
      cases w with
      | waiting uid0 =>
        by_cases hlt : st.counts uid0 < limit
        · simp only [hlt, if_true]
          exact gateInv_set_run st i uid0 (WPhase.waiting uid0) h hw
            (by intro uid hh; cases hh)
        · simp only [hlt, if_false]; exact h
      | dequeued u => exact h
      | running u => exact h
      | done => exact h
  | stopBreak i =>
    simp only [gateStep]
    cases hw : st.workers.get? i with
    | none => exact h
    | some w =>
      cases w with
      | waiting uid0 =>
        by_cases hstop : st.stop = true
        · simp only [hstop, if_true]
          exact gateInv_set_run st i uid0 (WPhase.waiting uid0) h hw
            (by intro uid hh; cases hh)
        · simp only [Bool.not_eq_true] at hstop
          simp only [hstop, Bool.false_eq_true, if_false]
          exact h
      | dequeued u => exact h
      | running u => exact h
      | done => exact h
  | finish i =>
    simp only [gateStep]
    cases hw : st.workers.get? i with
    | none => exact h
    | some w =>
      cases w with
      | running u =>
        cases u with
        | none =>
          exact gateInv_set_nonrun st i (WPhase.running none) WPhase.done h hw
            (by intro uid hh; cases hh) (by intro uid hh; cases hh)
        | some uid0 => exact gateInv_finish st i uid0 h hw
      | dequeued u => exact h
      | waiting uid0 => exact h
      | done => exact h

theorem gateStep_bound (limit : Nat) (st : GateState) (e : GEv)
    (hb : ∀ uid, st.counts uid ≤ limit) (hne : ∀ i, e ≠ GEv.stopBreak i) :
    ∀ uid, (gateStep (some limit) st e).counts uid ≤ limit := by
  intro uid
  cases e with
  | setStop => exact hb uid
  | stopBreak i => exact absurd rfl (hne i)
  | check i =>
    simp only [gateStep]
    cases hw : st.workers.get? i with
    | none => exact hb uid
    | some w =>
      cases w with
      | dequeued u =>
        cases u with
        | none => exact hb uid
        | some uid0 =>
          by_cases hlt : st.counts uid0 < limit
          · simp only [hlt, if_true, bump]
            by_cases huid : uid = uid0
            · subst huid; simp; omega
            · simp [huid]; exact hb uid
          · simp only [hlt, if_false]; exact hb uid
      | waiting uid0 => exact hb uid
      | running u => exact hb uid
      | done => exact hb uid
  | notify i =>
    simp only [gateStep]
    cases hw : st.workers.get? i with
    | none => exact hb uid
    | some w =>
      cases w with
      | waiting uid0 =>
        by_cases hlt : st.counts uid0 < limit
        · simp only [hlt, if_true, bump]
          by_cases huid : uid = uid0
          · subst huid; simp; omega
          · simp [huid]; exact hb uid
        · simp only [hlt, if_false]; exact hb uid
      | dequeued u => exact hb uid
      | running u => exact hb uid
      | done => exact hb uid
  | finish i =>
    simp only [gateStep]
    cases hw : st.workers.get? i with
    | none => exact hb uid
    | some w =>
      cases w with
      | running u =>
        cases u with
        | none => exact hb uid
        | some uid0 =>
          simp only [drop1]
          by_cases huid : uid = uid0
          · subst huid; simp; have := hb uid; omega
          · simp [huid]; exact hb uid
      | dequeued u => exact hb uid
      | waiting uid0 => exact hb uid
      | done => exact hb uid

theorem gateRun_inv_bound (limit : Nat) (evs : List GEv) (st : GateState)
    (hinv : GateInv st) (hb : ∀ uid, st.counts uid ≤ limit)
    (hns : ∀ i, GEv.stopBreak i ∉ evs) :
    GateInv (gateRun (some limit) st evs) ∧
      ∀ uid, (gateRun (some limit) st evs).counts uid ≤ limit := by
  induction evs generalizing st with
  | nil => exact ⟨hinv, hb⟩
  | cons e rest ih =>
    have hne : ∀ i, e ≠ GEv.stopBreak i := by
      intro i hh
      exact hns i (by simp [hh])
    have hns' : ∀ i, GEv.stopBreak i ∉ rest := by
      intro i hh
      exact hns i (by simp [hh])
    exact ih (gateStep (some limit) st e)
      (gateStep_inv limit st e hinv) (gateStep_bound limit st e hb hne) hns'

/-- C2, amended.  First conjunct: in every interleaving that contains no
stop-break admission (no worker leaves the admission wait loop through the
shutdown `break`), a submitter never has more than `limit` jobs running.
Second conjunct: with the gate disabled (`None`, the normalisation of a
zero-or-unset ceiling), a dequeued job is admitted unconditionally — the
gate imposes no limit.  Last conjuncts: the `__init__` normalisation maps
a zero or unset ceiling to `None`. -/
theorem ceiling_no_stopbreak (limit : Nat) (jobs : List (Option Nat))
    (evs : List GEv) (uid : Nat)
    (hns : ∀ i, GEv.stopBreak i ∉ evs) :
    runningCount uid (gateRun (some limit) (gateInit jobs) evs) ≤ limit ∧
    (∀ (st : GateState) (i : Nat) (u : Option Nat),
        st.workers.get? i = some (WPhase.dequeued u) →
        (gateStep none st (GEv.check i)).workers.get? i =
          some (WPhase.running u)) ∧
    normalizeMaxActive (some 0) = none ∧ normalizeMaxActive none = none := by
  refine ⟨?_, ?_, rfl, rfl⟩
  · have hinit_inv : GateInv (gateInit jobs) := by
      intro u
      simp only [gateInit, runningCount, List.countP_map]
      symm
      rw [List.countP_eq_zero]
      intro a ha
      simp
    have h := gateRun_inv_bound limit evs (gateInit jobs) hinit_inv
      (by intro u; simp [gateInit]) hns
    have h1 := h.1 uid
    have h2 := h.2 uid
    omega
  · intro st i u hw
    obtain ⟨hlen, -⟩ := List.get?_eq_some.1 hw
    cases u <;>
      simp only [gateStep, hw] <;>
      rw [List.get?_eq_getElem?, List.getElem?_set_self'] <;>
      simp [List.getElem?_eq_getElem hlen]

/-- Witness for C2's amended theorem: ceiling 1, two jobs of user 0, a
shutdown-free interleaving in which the second worker waits and then
re-checks; at most one job of user 0 ever runs. -/
theorem ceiling_no_stopbreak_witness :
    runningCount 0 (gateRun (some 1) (gateInit [some 0, some 0])
      [GEv.check 0, GEv.check 1, GEv.notify 1]) ≤ 1 :=
  (ceiling_no_stopbreak 1 [some 0, some 0]
    [GEv.check 0, GEv.check 1, GEv.notify 1] 0
    (by intro i hh; simp at hh)).1

end DownloadManager

namespace VideoDownloader

/-- C10.  Totality and fallback of `split_video`: the result is never
empty, and it is exactly the one-element list with the original path when
the file already fits, when the duration is unknown, when the duration is
non-positive, or when every ffmpeg invocation fails to produce a
non-empty part. -/
theorem split_video_total (fileSize maxSize : Nat) (duration : Option ℚ)
    (partOut : Nat → Option Nat) :
    split_video fileSize maxSize duration partOut ≠ [] ∧
    (fileSize ≤ maxSize →
      split_video fileSize maxSize duration partOut = [SplitPath.original]) ∧
    (duration = none →
      split_video fileSize maxSize duration partOut = [SplitPath.original]) ∧
    (∀ d, duration = some d → d ≤ 0 →
      split_video fileSize maxSize duration partOut = [SplitPath.original]) ∧
    ((∀ i, partOut i = none ∨ partOut i = some 0) →
      split_video fileSize maxSize duration partOut = [SplitPath.original]) := by
  refine ⟨?_, ?_, ?_, ?_, ?_⟩
  · unfold split_video
    by_cases hle : fileSize ≤ maxSize
    · simp [hle]
    · simp only [hle, if_false]
      cases duration with
      | none => simp
      | some d =>
        by_cases hd : d ≤ 0
        · simp [hd]
        · simp only [hd, if_false]
          by_cases hp : collectParts partOut ((fileSize + maxSize - 1) / maxSize) = []
          · simp [hp]
          · simp [hp]
  · intro hle
    unfold split_video
    simp [hle]
  · intro hd
    subst hd
    unfold split_video
    by_cases hle : fileSize ≤ maxSize <;> simp [hle]
  · intro d hd hd0
    subst hd
    unfold split_video
    by_cases hle : fileSize ≤ maxSize <;> simp [hle, hd0]
  · intro hfail
    unfold split_video
    have hempty : ∀ n, collectParts partOut n = [] := by
      intro n
      unfold collectParts
      rw [List.filterMap_eq_nil_iff]
      intro a _
      rcases hfail a with hnone | hzero
      · simp [hnone]
      · simp [hzero]
    by_cases hle : fileSize ≤ maxSize
    · simp [hle]
    · simp only [hle, if_false]
      cases duration with
      | none => simp
      | some d =>
        by_cases hd : d ≤ 0 <;> simp [hd, hempty]

/-- Witness for C10: a small file is returned unchanged, and an oversized
file with an unknown duration falls back to the original path. -/
theorem split_video_total_witness :
    split_video 10 45 (some 7) (fun _ => some 5) = [SplitPath.original] ∧
    split_video 120 45 none (fun _ => some 40) = [SplitPath.original] :=
  ⟨(split_video_total 10 45 (some 7) (fun _ => some 5)).2.1 (by decide),
   (split_video_total 120 45 none (fun _ => some 40)).2.2.1 rfl⟩

end VideoDownloader

namespace SplitJob

/-- Counterexample for C6: the claim's own scenario (size 120, limit 45,
three parts) with a sink that fails on part 1 and succeeds afterwards.
The loop swallows the part-1 failure and still delivers parts 2 and 3, so
part 2 is delivered although part 1 never was. -/
theorem split_order_counterexample : ¬ splitOrderClaim := by
  intro h
  have h1 := h 120 45 1 (fun _ => some 40) (fun i => decide (i ≠ 1))
  have h2 : (split_job
      (VideoDownloader.split_video 120 45 (some 1) (fun _ => some 40))
      (fun i => decide (i ≠ 1))).delivered = [2, 3] := by decide
  rw [h2] at h1
  have h3 := h1 2 (by decide) 1 (by decide) (by decide)
  simp at h3

theorem deliverLoop_sublist (sendOk : Nat → Bool) (l : List Nat) :
    (deliverLoop sendOk l).Sublist l := by
  induction l with
  | nil => simp [deliverLoop]
  | cons i rest ih =>
    simp only [deliverLoop]
    by_cases hs : sendOk i = true
    · simp only [hs, if_true]
      exact ih.cons₂ i
    · simp only [hs, if_false]
      exact ih.cons i

theorem deliverLoop_all (sendOk : Nat → Bool) (l : List Nat)
    (h : ∀ i, sendOk i = true) : deliverLoop sendOk l = l := by
  induction l with
  | nil => rfl
  | cons i rest ih => simp [deliverLoop, h i, ih]

theorem mem_deliverLoop (sendOk : Nat → Bool) (l : List Nat) (j : Nat) :
    j ∈ deliverLoop sendOk l ↔ j ∈ l ∧ sendOk j = true := by
  induction l with
  | nil => simp [deliverLoop]
  | cons i rest ih =>
    simp only [deliverLoop]
    by_cases hs : sendOk i = true
    · rw [if_pos hs]
      simp only [List.mem_cons, ih]
      constructor
      · rintro (rfl | ⟨hm, hj⟩)
        · exact ⟨Or.inl rfl, hs⟩
        · exact ⟨Or.inr hm, hj⟩
      · rintro ⟨rfl | hm, hj⟩
        · exact Or.inl rfl
        · exact Or.inr ⟨hm, hj⟩
    · rw [if_neg hs]
      simp only [List.mem_cons, ih]
      constructor
      · rintro ⟨hm, hj⟩
        exact ⟨Or.inr hm, hj⟩
      · rintro ⟨rfl | hm, hj⟩
        · exact absurd hj hs
        · exact ⟨hm, hj⟩

/-- C6, amended.  For an oversized artifact (`maxSize < fileSize`,
positive limit and duration) the split path behaves as follows.
(1) `split_video` cuts the stream into `N = ceil(fileSize / maxSize)`
equal-duration segments, so the total size fits in `N` parts of at most
`maxSize` each (`fileSize ≤ N * maxSize`); the sizes ffmpeg actually
produces are not re-checked against the limit.  (2) `_split_job` attempts
the parts exactly in order 1..N.  (3) The delivered positions are a
strictly increasing subsequence of 1..N: delivery order follows part
order, but a part whose send fails is skipped while later parts are still
delivered (a part can be delivered without all prior parts having been).
(4) A part is delivered exactly when its own send succeeds.  (5) When
every send succeeds the delivered sequence is exactly 1..N.  (6) No cache
entry is written on the split path (in particular none before all parts
are delivered). -/
theorem split_delivery_behavior (fileSize maxSize : Nat) (duration : ℚ)
    (partOut : Nat → Option Nat) (sendOk : Nat → Bool)
    (hms : 0 < maxSize) (hover : maxSize < fileSize) (hd : 0 < duration) :
    fileSize ≤ ((fileSize + maxSize - 1) / maxSize) * maxSize ∧
    (split_job (VideoDownloader.split_video fileSize maxSize (some duration) partOut)
        sendOk).attempted =
      (List.range (VideoDownloader.split_video fileSize maxSize (some duration)
        partOut).length).map (· + 1) ∧
    List.Pairwise (· < ·)
      (split_job (VideoDownloader.split_video fileSize maxSize (some duration) partOut)
        sendOk).delivered ∧
    ((split_job (VideoDownloader.split_video fileSize maxSize (some duration) partOut)
        sendOk).delivered).Sublist
      ((split_job (VideoDownloader.split_video fileSize maxSize (some duration) partOut)
        sendOk).attempted) ∧
    (∀ j, j ∈ (split_job (VideoDownloader.split_video fileSize maxSize (some duration)
        partOut) sendOk).attempted →
      (j ∈ (split_job (VideoDownloader.split_video fileSize maxSize (some duration)
          partOut) sendOk).delivered ↔ sendOk j = true)) ∧
    ((∀ i, sendOk i = true) →
      (split_job (VideoDownloader.split_video fileSize maxSize (some duration) partOut)
          sendOk).delivered =
        (split_job (VideoDownloader.split_video fileSize maxSize (some duration) partOut)
          sendOk).attempted) ∧
    (split_job (VideoDownloader.split_video fileSize maxSize (some duration) partOut)
        sendOk).cacheWritten = false := by
  refine ⟨?_, rfl, ?_, ?_, ?_, ?_, rfl⟩
  · have h1 : fileSize + maxSize - 1 <
        (fileSize + maxSize - 1) / maxSize * maxSize + maxSize :=
      Nat.lt_div_mul_add hms
    generalize ht : (fileSize + maxSize - 1) / maxSize * maxSize = t at h1 ⊢
    omega
  · have hsub := deliverLoop_sublist sendOk
      ((List.range (VideoDownloader.split_video fileSize maxSize (some duration)
        partOut).length).map (· + 1))
    have hpw : List.Pairwise (· < ·)
        ((List.range (VideoDownloader.split_video fileSize maxSize (some duration)
          partOut).length).map (· + 1)) := by
      refine List.Pairwise.map _ ?_ (List.pairwise_lt_range _)
      intro a b hab
      omega
    exact hpw.sublist hsub
  · exact deliverLoop_sublist sendOk _
  · intro j hj
    show j ∈ deliverLoop sendOk _ ↔ sendOk j = true
    rw [mem_deliverLoop]
    constructor
    · rintro ⟨-, hs⟩; exact hs
    · intro hs; exact ⟨hj, hs⟩
  · intro hall
    exact deliverLoop_all sendOk _ hall

/-- Witness for C6's amended theorem: the spec scenario (size 120, limit
45, three proportional parts) with an always-succeeding sink delivers
exactly the parts 1, 2, 3 in order. -/
theorem split_delivery_behavior_witness :
    (split_job (VideoDownloader.split_video 120 45 (some 1) (fun _ => some 40))
      (fun _ => true)).delivered = [1, 2, 3] ∧
    120 ≤ ((120 + 45 - 1) / 45) * 45 := by
  have h := split_delivery_behavior 120 45 1 (fun _ => some 40) (fun _ => true)
    (by decide) (by decide) (by decide)
  refine ⟨?_, h.1⟩
  have h5 := h.2.2.2.2.2.1 (fun i => rfl)
  rw [h5, h.2.1]
  decide

end SplitJob

namespace Storage

theorem find?_upsertRows (k : CacheKey) (fid : String) (size : Option Nat)
    (table : List CacheRow) :
    (upsertRows k fid size table).find? (fun r => decide (r.key = k)) =
      some ⟨k, fid, size⟩ := by
  induction table with
  | nil => simp [upsertRows, List.find?]
  | cons r rest ih =>
    simp only [upsertRows]
    by_cases hk : r.key = k
    · simp [hk, List.find?]
    · simp only [hk, if_false]
      rw [List.find?_cons_of_neg _ (by simp [hk])]
      exact ih

theorem keyCount_upsertRows (k : CacheKey) (fid : String) (size : Option Nat)
    (table : List CacheRow) :
    keyCount (upsertRows k fid size table) k = max 1 (keyCount table k) := by
  induction table with
  | nil => simp [upsertRows, keyCount]
  | cons r rest ih =>
    simp only [upsertRows]
    by_cases hk : r.key = k
    · have h1 : keyCount (CacheRow.mk k fid size :: rest) k = keyCount rest k + 1 := by
        simp [keyCount, List.countP_cons]
      have h2 : keyCount (r :: rest) k = keyCount rest k + 1 := by
        simp [keyCount, List.countP_cons, hk]
      rw [if_pos hk, h1, h2]
      omega
    · have h1 : keyCount (r :: upsertRows k fid size rest) k =
          keyCount (upsertRows k fid size rest) k := by
        simp [keyCount, List.countP_cons, hk]
      have h2 : keyCount (r :: rest) k = keyCount rest k := by
        simp [keyCount, List.countP_cons, hk]
      rw [if_neg hk, h1, h2]
      exact ih

/-- C9.  Cache round-trip and upsert.  On any table satisfying the
UNIQUE(url, format_id, reencoded, audio_only) constraint (at most one row
per key), after `cache_file`: reading the same key with `get_cached_file`
returns the written delivery handle; the row stored for the key carries
the written handle and byte size; the key occupies exactly one row; and a
second `cache_file` with the same key overwrites that row — still exactly
one row, now holding the second handle — instead of adding a duplicate. -/
theorem cache_round_trip_upsert (table : List CacheRow) (url : String)
    (format_id : Option String) (reencoded audio_only : Bool)
    (fid fid2 : String) (size size2 : Option Nat)
    (hu : keyCount table ⟨url, normFmt format_id, reencoded, audio_only⟩ ≤ 1) :
    get_cached_file (cache_file table url format_id reencoded audio_only fid size)
        url format_id reencoded audio_only = some fid ∧
    (cache_file table url format_id reencoded audio_only fid size).find?
        (fun r => decide (r.key = ⟨url, normFmt format_id, reencoded, audio_only⟩)) =
      some ⟨⟨url, normFmt format_id, reencoded, audio_only⟩, fid, size⟩ ∧
    keyCount (cache_file table url format_id reencoded audio_only fid size)
        ⟨url, normFmt format_id, reencoded, audio_only⟩ = 1 ∧
    keyCount
        (cache_file (cache_file table url format_id reencoded audio_only fid size)
          url format_id reencoded audio_only fid2 size2)
        ⟨url, normFmt format_id, reencoded, audio_only⟩ = 1 ∧
    get_cached_file
        (cache_file (cache_file table url format_id reencoded audio_only fid size)
          url format_id reencoded audio_only fid2 size2)
        url format_id reencoded audio_only = some fid2 := by
  refine ⟨?_, ?_, ?_, ?_, ?_⟩
  · unfold get_cached_file cache_file
    rw [find?_upsertRows]
    rfl
  · exact find?_upsertRows _ _ _ _
  · unfold cache_file
    rw [keyCount_upsertRows]
    omega
  · unfold cache_file
    rw [keyCount_upsertRows, keyCount_upsertRows]
    omega
  · unfold get_cached_file cache_file
    rw [find?_upsertRows]
    rfl

/-- Witness for C9 on the empty table: write, read back, overwrite. -/
theorem cache_round_trip_upsert_witness :
    get_cached_file (cache_file [] "u" none false false "fid1" (some 42))
        "u" none false false = some "fid1" ∧
    get_cached_file
        (cache_file (cache_file [] "u" none false false "fid1" (some 42))
          "u" none false false "fid2" (some 43))
        "u" none false false = some "fid2" := by
  have h := cache_round_trip_upsert [] "u" none false false "fid1" "fid2"
    (some 42) (some 43) (by decide)
  exact ⟨h.1, h.2.2.2.2⟩

end Storage

namespace DownloadJob

theorem cacheProbe_shape (env : JobEnv) (audioOnly : Bool) :
    ∃ hit rest, (cacheProbe env audioOnly).1 =
      JEv.cacheGet (!audioOnly && !env.deviceAndroid) audioOnly hit :: rest := by
  unfold cacheProbe
  rcases env.cached (!audioOnly && !env.deviceAndroid) audioOnly with _ | fid
  · cases hre : (!audioOnly && !env.deviceAndroid)
    · simp only [hre, Bool.false_eq_true, if_false]
      cases hao : (!audioOnly)
      · simp only [hao, Bool.false_eq_true, if_false]
        exact ⟨false, [], rfl⟩
      · simp only [hao, if_true]
        rcases env.cached true audioOnly with _ | fid2
        · exact ⟨false, _, rfl⟩
        · exact ⟨false, _, rfl⟩
    · simp only [hre, if_true]
      rcases env.cached false audioOnly with _ | fid2
      · exact ⟨false, _, rfl⟩
      · exact ⟨false, _, rfl⟩
  · exact ⟨true, [], rfl⟩

theorem cacheProbe_mem (env : JobEnv) (audioOnly : Bool) (e : JEv)
    (h : e ∈ (cacheProbe env audioOnly).1) : isCacheGet e = true := by
  unfold cacheProbe at h
  split at h
  all_goals try split at h
  all_goals try split at h
  all_goals try split at h
  all_goals try simp only [List.mem_cons, List.not_mem_nil, or_false] at h
  all_goals first
  | (rcases h with rfl | rfl)
  | (rcases h with rfl)
  all_goals rfl

theorem fallbackFetch_append (env : JobEnv) (maxFileSize : Nat) (pre : List JEv) :
    ∃ rest, (fallbackFetch env maxFileSize pre).1 = pre ++ rest :=
  ⟨fetchTrace env maxFileSize, rfl⟩

theorem fetchTrace_mem (env : JobEnv) (maxFileSize : Nat) (e : JEv)
    (h : e ∈ fetchTrace env maxFileSize) :
    e ∈ [JEv.downloadCall, JEv.splitPrompt, JEv.sendFileAttempt,
      JEv.cacheWrite, JEv.logDownloadEv true, JEv.logDownloadEv false] := by
  unfold fetchTrace at h
  split at h
  all_goals try split at h
  all_goals try split at h
  all_goals simp only [List.mem_cons, List.not_mem_nil, or_false] at h ⊢
  all_goals tauto

theorem fallbackFetch_mem (env : JobEnv) (maxFileSize : Nat) (pre : List JEv)
    (e : JEv) (h : e ∈ (fallbackFetch env maxFileSize pre).1) :
    e ∈ pre ∨ e ∈ [JEv.downloadCall, JEv.splitPrompt, JEv.sendFileAttempt,
      JEv.cacheWrite, JEv.logDownloadEv true, JEv.logDownloadEv false] :=
  (List.mem_append.1 h).imp id (fetchTrace_mem env maxFileSize e)

theorem fetchTrace_has_download (env : JobEnv) (maxFileSize : Nat) :
    JEv.downloadCall ∈ fetchTrace env maxFileSize := by
  unfold fetchTrace
  split
  all_goals try split
  all_goals try split
  all_goals simp

theorem fallbackFetch_has_download (env : JobEnv) (maxFileSize : Nat)
    (pre : List JEv) : JEv.downloadCall ∈ (fallbackFetch env maxFileSize pre).1 :=
  List.mem_append.2 (Or.inr (fetchTrace_has_download env maxFileSize))

theorem afterCacheMiss_append (env : JobEnv) (maxFileSize : Nat) (pre : List JEv) :
    ∃ rest, (afterCacheMiss env maxFileSize pre).1 = pre ++ rest := by
  unfold afterCacheMiss
  rcases directUrlOf env with _ | u
  · obtain ⟨r, hr⟩ := fallbackFetch_append env maxFileSize (pre ++ [JEv.getInfoCall])
    exact ⟨[JEv.getInfoCall] ++ r, by rw [hr, List.append_assoc]⟩
  · by_cases h1 : maxFileSize < (directSizeOf env).getD 0
    · rw [if_pos h1]
      obtain ⟨r, hr⟩ := fallbackFetch_append env maxFileSize (pre ++ [JEv.getInfoCall])
      exact ⟨[JEv.getInfoCall] ++ r, by rw [hr, List.append_assoc]⟩
    · rw [if_neg h1]
      by_cases h2 : env.directSendOk = true
      · rw [if_pos h2]
        exact ⟨[JEv.getInfoCall, JEv.directSendAttempt, JEv.logDownloadEv true],
          by simp⟩
      · rw [if_neg h2]
        obtain ⟨r, hr⟩ := fallbackFetch_append env maxFileSize
          (pre ++ [JEv.getInfoCall, JEv.directSendAttempt])
        exact ⟨[JEv.getInfoCall, JEv.directSendAttempt] ++ r,
          by rw [hr, List.append_assoc]⟩

theorem afterCacheMiss_mem (env : JobEnv) (maxFileSize : Nat) (pre : List JEv)
    (e : JEv) (h : e ∈ (afterCacheMiss env maxFileSize pre).1) :
    e ∈ pre ∨ e ∈ [JEv.getInfoCall, JEv.directSendAttempt, JEv.downloadCall,
      JEv.splitPrompt, JEv.sendFileAttempt, JEv.cacheWrite,
      JEv.logDownloadEv true, JEv.logDownloadEv false] := by
  unfold afterCacheMiss at h
  split at h
  all_goals try split at h
  all_goals try split at h
  all_goals
    first
    | (rcases fallbackFetch_mem _ _ _ _ h with h2 | h2
       · rcases List.mem_append.1 h2 with h3 | h3
         · exact Or.inl h3
         · right
           simp only [List.mem_cons, List.not_mem_nil, or_false] at h3 ⊢
           tauto
       · right
         simp only [List.mem_cons, List.not_mem_nil, or_false] at h2 ⊢
         tauto)
    | (rcases List.mem_append.1 h with h2 | h2
       · exact Or.inl h2
       · right
         simp only [List.mem_cons, List.not_mem_nil, or_false] at h2 ⊢
         tauto)

theorem jobBody_append (env : JobEnv) (audioOnly : Bool) (maxFileSize : Nat) :
    ∃ rest, (jobBody env audioOnly maxFileSize).1 =
      (cacheProbe env audioOnly).1 ++ rest := by
  unfold jobBody
  rcases hcp : cacheProbe env audioOnly with ⟨tr, c⟩
  rcases c with _ | fid
  · simp only
    obtain ⟨r, hr⟩ := afterCacheMiss_append env maxFileSize tr
    exact ⟨r, by rw [hr]⟩
  · simp only
    by_cases hok : env.cachedSendOk = true
    · rw [if_pos hok]
      exact ⟨[JEv.sendCached, JEv.logDownloadEv true], rfl⟩
    · rw [if_neg hok]
      obtain ⟨r, hr⟩ := afterCacheMiss_append env maxFileSize
        (tr ++ [JEv.sendCached])
      exact ⟨[JEv.sendCached] ++ r, by rw [hr, List.append_assoc]⟩

theorem jobBody_mem (env : JobEnv) (audioOnly : Bool) (maxFileSize : Nat)
    (e : JEv) (h : e ∈ (jobBody env audioOnly maxFileSize).1) :
    isCacheGet e = true ∨ e ∈ [JEv.sendCached, JEv.getInfoCall,
      JEv.directSendAttempt, JEv.downloadCall, JEv.splitPrompt,
      JEv.sendFileAttempt, JEv.cacheWrite, JEv.logDownloadEv true,
      JEv.logDownloadEv false] := by
  unfold jobBody at h
  rcases hcp : cacheProbe env audioOnly with ⟨tr, c⟩
  rw [hcp] at h
  have htr : ∀ x, x ∈ tr → isCacheGet x = true := by
    intro x hx
    exact cacheProbe_mem env audioOnly x (by rw [hcp]; exact hx)
  rcases c with _ | fid
  · simp only at h
    rcases afterCacheMiss_mem env maxFileSize tr e h with h2 | h2
    · exact Or.inl (htr e h2)
    · right
      simp only [List.mem_cons, List.not_mem_nil, or_false] at h2 ⊢
      tauto
  · simp only at h
    by_cases hok : env.cachedSendOk = true
    · rw [if_pos hok] at h
      rcases List.mem_append.1 h with h2 | h2
      · exact Or.inl (htr e h2)
      · right
        simp only [List.mem_cons, List.not_mem_nil, or_false] at h2 ⊢
        tauto
    · rw [if_neg hok] at h
      rcases afterCacheMiss_mem env maxFileSize (tr ++ [JEv.sendCached]) e h
        with h2 | h2
      · rcases List.mem_append.1 h2 with h3 | h3
        · exact Or.inl (htr e h3)
        · right
          simp only [List.mem_cons, List.not_mem_nil, or_false] at h3 ⊢
          tauto
      · right
        simp only [List.mem_cons, List.not_mem_nil, or_false] at h2 ⊢
        tauto

theorem jobBody_no_release (env : JobEnv) (audioOnly : Bool) (maxFileSize : Nat) :
    JEv.releaseEv ∉ (jobBody env audioOnly maxFileSize).1 ∧
    ∀ b, JEv.tryAcquireEv b ∉ (jobBody env audioOnly maxFileSize).1 := by
  constructor
  · intro h
    rcases jobBody_mem env audioOnly maxFileSize _ h with h2 | h2
    · simp [isCacheGet] at h2
    · simp at h2
  · intro b h
    rcases jobBody_mem env audioOnly maxFileSize _ h with h2 | h2
    · simp [isCacheGet] at h2
    · simp at h2

/-- Counterexample for C3: in the code the very first action of an
admitted job is `try_acquire` (download.py line 197); the cache probe
(line 281) runs only afterwards, inside the lock.  The successful acquire
sits at index 0 of the trace, so no cache-miss probe precedes it. -/
theorem cache_before_lock_counterexample :
    ¬ acquireOnlyAfterMiss (job envHit false 50 ActiveDownloads.emptyMap "u").1 := by
  intro h
  have h0 := h 0 (by decide)
  obtain ⟨j, hj, -⟩ := h0
  omega

/-- C3, amended.  For every admitted job (not blocked, no shutdown) whose
resource is free, the trace starts with the successful `try_acquire` and
the cache probe for the preferred variant `(need_reencoded, audio_only)`
is the very next action: the mutex is taken first and the cache is
consulted immediately after, before any resolver or fetch call. -/
theorem lock_then_cache_order (env : JobEnv) (audioOnly : Bool)
    (maxFileSize : Nat) (m : ActiveDownloads.ActiveMap) (url : String)
    (hb : env.blocked = false) (hs : env.shutdownRequested = false)
    (hfree : m url = 0) :
    (job env audioOnly maxFileSize m url).1.head? =
      some (JEv.tryAcquireEv true) ∧
    ∃ hit, (job env audioOnly maxFileSize m url).1.tail.head? =
      some (JEv.cacheGet (!audioOnly && !env.deviceAndroid) audioOnly hit) := by
  have hacq : (ActiveDownloads.try_acquire m url).1 = true := by
    simp [ActiveDownloads.try_acquire, hfree]
  have htrace : (job env audioOnly maxFileSize m url).1 =
      JEv.tryAcquireEv true :: (jobBody env audioOnly maxFileSize).1 ++
        [JEv.releaseEv] := by
    unfold job
    simp only [hb, Bool.false_eq_true, if_false, hs, hacq, if_true]
  obtain ⟨hit, rest, hshape⟩ := cacheProbe_shape env audioOnly
  obtain ⟨r2, hbody⟩ := jobBody_append env audioOnly maxFileSize
  rw [htrace]
  constructor
  · rfl
  · refine ⟨hit, ?_⟩
    have htl : (JEv.tryAcquireEv true :: (jobBody env audioOnly maxFileSize).1 ++
        [JEv.releaseEv]).tail =
        (jobBody env audioOnly maxFileSize).1 ++ [JEv.releaseEv] := rfl
    rw [htl, hbody, hshape]
    simp

/-- Witness for C3's amended theorem at the concrete cache-hit
environment with a free resource. -/
theorem lock_then_cache_order_witness :
    (job envHit false 50 ActiveDownloads.emptyMap "u").1.head? =
      some (JEv.tryAcquireEv true) :=
  (lock_then_cache_order envHit false 50 ActiveDownloads.emptyMap "u"
    rfl rfl rfl).1

/-- C5.  Unconditional lock release.  In every run of `_job`: when the
pre-lock guards pass and `try_acquire` succeeds, `release` is executed
exactly once (and the successful acquire happens exactly once); when the
job exits before or at the gate, no release happens; and the registry
count of the URL always returns to its initial value. -/
theorem release_exactly_once (env : JobEnv) (audioOnly : Bool)
    (maxFileSize : Nat) (m : ActiveDownloads.ActiveMap) (url : String) :
    ((job env audioOnly maxFileSize m url).1.count JEv.releaseEv =
      if env.blocked = true then 0 else if env.shutdownRequested = true then 0
      else if m url = 0 then 1 else 0) ∧
    ((job env audioOnly maxFileSize m url).1.count (JEv.tryAcquireEv true) =
      if env.blocked = true then 0 else if env.shutdownRequested = true then 0
      else if m url = 0 then 1 else 0) ∧
    ((job env audioOnly maxFileSize m url).2.2 url = m url) := by
  by_cases hb : env.blocked = true
  · simp [job, hb]
  · by_cases hs : env.shutdownRequested = true
    · simp [job, hb, hs]
    · by_cases hfree : m url = 0
      · have hacq : (ActiveDownloads.try_acquire m url).1 = true := by
          simp [ActiveDownloads.try_acquire, hfree]
        have hnorel := jobBody_no_release env audioOnly maxFileSize
        have hc1 : (jobBody env audioOnly maxFileSize).1.count JEv.releaseEv = 0 :=
          List.count_eq_zero.2 hnorel.1
        have hc2 : (jobBody env audioOnly maxFileSize).1.count
            (JEv.tryAcquireEv true) = 0 :=
          List.count_eq_zero.2 (hnorel.2 true)
        refine ⟨?_, ?_, ?_⟩
        · simp [job, hb, hs, hacq, hfree, List.count_cons, List.count_append, hc1]
        · simp [job, hb, hs, hacq, hfree, List.count_cons, List.count_append, hc2]
        · simp only [job, hb, Bool.false_eq_true, if_false, hs, hacq, if_true]
          simp [ActiveDownloads.release, ActiveDownloads.try_acquire, hfree]
      · have hpos : 0 < m url := Nat.pos_of_ne_zero hfree
        have hacq : (ActiveDownloads.try_acquire m url).1 = false := by
          simp [ActiveDownloads.try_acquire, hpos]
        refine ⟨?_, ?_, ?_⟩
        · simp [job, hb, hs, hacq, hfree, List.count_cons]
        · simp [job, hb, hs, hacq, hfree, List.count_cons]
        · simp [job, hb, hs, hacq, ActiveDownloads.try_acquire, hpos]

theorem cacheProbe_snd_none (env : JobEnv) (audioOnly : Bool)
    (hmiss : ∀ re ao, env.cached re ao = none) :
    (cacheProbe env audioOnly).2 = none := by
  unfold cacheProbe
  simp only [hmiss]
  split
  · rfl
  · split
    · rfl
    · rfl

theorem jobBody_of_miss (env : JobEnv) (audioOnly : Bool) (maxFileSize : Nat)
    (hmiss : ∀ re ao, env.cached re ao = none) :
    jobBody env audioOnly maxFileSize =
      afterCacheMiss env maxFileSize (cacheProbe env audioOnly).1 := by
  have h2 := cacheProbe_snd_none env audioOnly hmiss
  unfold jobBody
  rcases hcp : cacheProbe env audioOnly with ⟨tr, c⟩
  rw [hcp] at h2
  simp only at h2
  subst h2
  rfl

/-- C8.  Direct delivery is a non-fatal optimisation.  For an admitted
job on a free resource with a cold cache:
(a) when the resolver declares a direct candidate whose size exceeds the
sink maximum, the direct send is never attempted and the job performs the
fallback fetch instead;
(b) when a usable direct candidate (declared size within the limit) is
attempted and the send fails, the job still performs the fallback fetch
and its outcome is exactly the fallback-fetch outcome — the direct-send
failure does not terminate the job. -/
theorem direct_delivery_optional (env : JobEnv) (audioOnly : Bool)
    (maxFileSize : Nat) (m : ActiveDownloads.ActiveMap) (url : String)
    (hb : env.blocked = false) (hs : env.shutdownRequested = false)
    (hfree : m url = 0) (hmiss : ∀ re ao, env.cached re ao = none) :
    (∀ u n, env.info = some ⟨some u, some n⟩ → maxFileSize < n →
      JEv.directSendAttempt ∉ (job env audioOnly maxFileSize m url).1 ∧
      JEv.downloadCall ∈ (job env audioOnly maxFileSize m url).1) ∧
    (∀ u dsz, env.info = some ⟨some u, dsz⟩ → dsz.getD 0 ≤ maxFileSize →
      env.skipExtractor = false → env.directSendOk = false →
      JEv.directSendAttempt ∈ (job env audioOnly maxFileSize m url).1 ∧
      JEv.downloadCall ∈ (job env audioOnly maxFileSize m url).1 ∧
      (job env audioOnly maxFileSize m url).2.1 = fetchOutcome env maxFileSize) := by
  have hacq : (ActiveDownloads.try_acquire m url).1 = true := by
    simp [ActiveDownloads.try_acquire, hfree]
  have htrace : (job env audioOnly maxFileSize m url).1 =
      JEv.tryAcquireEv true :: (jobBody env audioOnly maxFileSize).1 ++
        [JEv.releaseEv] := by
    unfold job
    simp only [hb, Bool.false_eq_true, if_false, hs, hacq, if_true]
  have houtcome : (job env audioOnly maxFileSize m url).2.1 =
      (jobBody env audioOnly maxFileSize).2 := by
    unfold job
    simp only [hb, Bool.false_eq_true, if_false, hs, hacq, if_true]
  have hbody := jobBody_of_miss env audioOnly maxFileSize hmiss
  constructor
  · intro u n hinfo hsz
    have hfall : jobBody env audioOnly maxFileSize =
        fallbackFetch env maxFileSize
          ((cacheProbe env audioOnly).1 ++ [JEv.getInfoCall]) := by
      rw [hbody]
      unfold afterCacheMiss
      cases hskip : env.skipExtractor
      · have hdu : directUrlOf env = some u := by
          simp [directUrlOf, hinfo, hskip]
        rw [hdu]
        have hds : maxFileSize < (directSizeOf env).getD 0 := by
          simp [directSizeOf, hinfo]
          exact hsz
        rw [if_pos hds]
      · have hdu : directUrlOf env = none := by
          simp [directUrlOf, hinfo, hskip]
        rw [hdu]
    constructor
    · intro hmem
      rw [htrace, hfall] at hmem
      simp only [fallbackFetch, List.cons_append, List.mem_cons, List.mem_append,
        List.mem_singleton] at hmem
      rcases hmem with h | h
      · simp at h
      · rcases h with (h | h) | h
        · rcases h with h | h
          · have := cacheProbe_mem env audioOnly _ h
            simp [isCacheGet] at this
          · simp at h
        · have := fetchTrace_mem env maxFileSize _ h
          simp at this
        · simp at h
    · rw [htrace, hfall]
      simp only [fallbackFetch, List.cons_append, List.mem_cons, List.mem_append]
      right
      left
      right
      exact fetchTrace_has_download env maxFileSize
  · intro u dsz hinfo hsz hskip hok
    have hdu : directUrlOf env = some u := by
      simp [directUrlOf, hinfo, hskip]
    have hds : ¬ maxFileSize < (directSizeOf env).getD 0 := by
      simp only [directSizeOf, hinfo]
      omega
    have hfall : jobBody env audioOnly maxFileSize =
        fallbackFetch env maxFileSize
          ((cacheProbe env audioOnly).1 ++
            [JEv.getInfoCall, JEv.directSendAttempt]) := by
      rw [hbody]
      unfold afterCacheMiss
      rw [hdu, if_neg hds, if_neg (by simp [hok])]
    refine ⟨?_, ?_, ?_⟩
    · rw [htrace, hfall]
      simp [fallbackFetch]
    · rw [htrace, hfall]
      simp only [fallbackFetch, List.cons_append, List.mem_cons, List.mem_append]
      right
      left
      right
      exact fetchTrace_has_download env maxFileSize
    · rw [houtcome, hfall]
      rfl

/-- Witness for C8 at a concrete environment: the oversized direct
candidate is skipped and the fallback fetch runs. -/
theorem direct_delivery_optional_witness :
    JEv.directSendAttempt ∉
      (job envOversizeDirect false 50 ActiveDownloads.emptyMap "u").1 ∧
    JEv.downloadCall ∈
      (job envOversizeDirect false 50 ActiveDownloads.emptyMap "u").1 :=
  (direct_delivery_optional envOversizeDirect false 50 ActiveDownloads.emptyMap
    "u" rfl rfl rfl (fun _ _ => rfl)).1 "du" 100 rfl (by decide)

end DownloadJob
